import Mathlib

/-!
Verification of the asynchronous request-orchestration core of
`aphrodite/engine/async_aphrodite.py`: the `AsyncStream` per-request output
channel, the `RequestTracker` registry with its pending-new and
pending-finished buffers, and the error paths of the background engine loop
and its public facade (`AsyncAphrodite`).

The Python classes are embedded shallowly: the mutable object heap of
streams becomes an explicit list indexed by allocation order, dictionaries
become association lists with Python-dict insert/remove semantics, and
methods that may raise become `Except`-valued functions.
-/

namespace AsyncAphrodite

/-- A request output as produced by the external engine and routed through
`RequestTracker.process_request_output`: Python reads its `request_id` and
`finished` attributes; the remaining payload is opaque. -/
structure ReqOutput where
  request_id : String
  finished : Bool
  data : Nat
deriving Repr, DecidableEq

/-- The exception values that flow through this module.  `stopAsyncIteration`
is the terminal marker `AsyncStream.finish` enqueues; the others correspond to
the Python exception classes raised or caught in `async_aphrodite.py`. -/
inductive Exc where
  | stopAsyncIteration
  | keyError (k : String)
  | valueError (msg : String)
  | asyncEngineDead (msg : String)
  | runtimeError (msg : String)
  | assertionError
  | timeoutError
  | cancelledError
  | other (code : Nat)
deriving Repr, DecidableEq

/-- An element of an `AsyncStream`'s internal queue: either a request output
or an exception object (Python's `put` accepts both; `finish` enqueues a
`StopAsyncIteration` instance, which is itself an exception object). -/
inductive StreamItem where
  | out (o : ReqOutput)
  | exc (e : Exc)
deriving Repr, DecidableEq

/-- `AsyncStream`: per-request channel with an item queue and a finished
flag (`_queue` and `_finished` in the source). -/
structure AsyncStream where
  request_id : String
  queue : List StreamItem
  finished : Bool
deriving Repr, DecidableEq

namespace AsyncStream

/-- `AsyncStream.__init__`: empty queue, not finished. -/
def new (request_id : String) : AsyncStream :=
  { request_id := request_id, queue := [], finished := false }

/-- `AsyncStream.put`: no-op if already finished, else enqueue the item. -/
def put (s : AsyncStream) (item : StreamItem) : AsyncStream :=
  if s.finished then s else { s with queue := s.queue ++ [item] }

/-- `AsyncStream.finish`: unconditionally enqueue a `StopAsyncIteration`
marker, then set the finished flag. -/
def finish (s : AsyncStream) : AsyncStream :=
  { s with queue := s.queue ++ [StreamItem.exc Exc.stopAsyncIteration],
           finished := true }

end AsyncStream

/-- How consumption of a stream's queue ends: `clean` when the consumer hits
the `StopAsyncIteration` marker (the `async for` terminates normally),
`raised e` when `__anext__` re-raises a propagated exception, `blocked` when
the queue is exhausted with no terminal marker (the consumer would suspend
on `await self._queue.get()`). -/
inductive Terminal where
  | clean
  | raised (e : Exc)
  | blocked
deriving Repr, DecidableEq

/-- Consuming a stream queue via repeated `__anext__`: outputs are yielded in
order; the first exception item stops consumption (a `StopAsyncIteration`
terminates the iteration cleanly, any other exception is raised to the
consumer). -/
def consumeQueue : List StreamItem → List ReqOutput × Terminal
  | [] => ([], Terminal.blocked)
  | StreamItem.out o :: rest =>
      let r := consumeQueue rest
      (o :: r.1, r.2)
  | StreamItem.exc Exc.stopAsyncIteration :: _ => ([], Terminal.clean)
  | StreamItem.exc e :: _ => ([], Terminal.raised e)

/-- Fold a list of outputs into a stream via `put`. -/
def putAll (s : AsyncStream) (items : List ReqOutput) : AsyncStream :=
  items.foldl (fun acc o => acc.put (StreamItem.out o)) s

/-! ## Dictionary and heap helpers

Python dictionaries are embedded as association lists: assignment replaces
the value in place when the key is present (keeping its position) and appends
otherwise; `pop(k, None)` removes the entry if present.  The mutable stream
objects shared between `_request_streams` and `_new_requests` are embedded as
a heap: a list of `AsyncStream`s indexed by allocation order, with both
structures holding indices into it. -/

/-- Lookup in an association list (Python `d[k]` / `in`). -/
def dictLookup (d : List (String × Nat)) (k : String) : Option Nat :=
  match d with
  | [] => none
  | (k', v) :: rest => if k' = k then some v else dictLookup rest k

/-- Python `k in d`. -/
def dictContains (d : List (String × Nat)) (k : String) : Bool :=
  (dictLookup d k).isSome

/-- Python `d[k] = v`: replace in place if present, append otherwise. -/
def dictInsert (d : List (String × Nat)) (k : String) (v : Nat) :
    List (String × Nat) :=
  if dictContains d k then
    d.map (fun p => if p.1 = k then (k, v) else p)
  else d ++ [(k, v)]

/-- Python `d.pop(k, None)`: drop the entry for `k` if present. -/
def dictRemove (d : List (String × Nat)) (k : String) : List (String × Nat) :=
  d.filter (fun p => p.1 ≠ k)

/-- Read a stream from the heap (total, with an inert default for
out-of-range indices, which never occur in reachable states). -/
def heapGet (h : List AsyncStream) (i : Nat) : AsyncStream :=
  (h[i]?).getD ⟨"", [], false⟩

/-- `RequestTracker` state: the stream heap, the live mapping
`_request_streams` (request id → stream index), the pending-finished FIFO
`_finished_requests`, the pending-new FIFO `_new_requests` (stream index
paired with the buffered construction kwargs), and the wake event. -/
structure ReqKwargs where
  request_id : String
  args : Nat
deriving Repr, DecidableEq

structure Tracker where
  heap : List AsyncStream
  request_streams : List (String × Nat)
  finished_requests : List String
  new_requests : List (Nat × ReqKwargs)
  new_requests_event : Bool
deriving Repr, DecidableEq

namespace Tracker

/-- `RequestTracker.__init__`. -/
def init : Tracker :=
  { heap := [], request_streams := [], finished_requests := [],
    new_requests := [], new_requests_event := false }

/-- `RequestTracker.add_request`: raises `KeyError` if the id is already in
`_request_streams`; otherwise allocates a fresh stream, buffers
`(stream, kwargs)` into `_new_requests`, sets the wake event, and returns
the stream (its heap index here). -/
def add_request (t : Tracker) (rid : String) (args : Nat) :
    Except Exc (Tracker × Nat) :=
  if dictContains t.request_streams rid then
    Except.error (Exc.keyError rid)
  else
    let sid := t.heap.length
    Except.ok
      ({ t with
          heap := t.heap ++ [AsyncStream.new rid],
          new_requests := t.new_requests ++ [(sid, ⟨rid, args⟩)],
          new_requests_event := true }, sid)

/-- `RequestTracker.abort_request`: enqueue the id into
`_finished_requests`; then, unless the id is absent from `_request_streams`
or its stream is already finished, finish the stream. -/
def abort_request (t : Tracker) (rid : String) : Tracker :=
  let t1 := { t with finished_requests := t.finished_requests ++ [rid] }
  match dictLookup t1.request_streams rid with
  | none => t1
  | some sid =>
      if (heapGet t1.heap sid).finished then t1
      else { t1 with heap := t1.heap.set sid (heapGet t1.heap sid).finish }

/-- Body of `propagate_exception`'s `for` loop over `_request_streams.items()`
(the loop mutates streams and the finished buffer but never the dict, so
iterating the entry list is faithful): put the exception, then abort. -/
def propagateAllGo (e : Exc) (entries : List (String × Nat)) (t : Tracker) :
    Tracker :=
  match entries with
  | [] => t
  | (rid, sid) :: rest =>
      let t1 := { t with
        heap := t.heap.set sid ((heapGet t.heap sid).put (StreamItem.exc e)) }
      propagateAllGo e rest (t1.abort_request rid)

/-- `RequestTracker.propagate_exception`: with a request id, index into
`_request_streams` (raising `KeyError` if absent), put the exception and
abort; with `None`, deliver to every live stream and abort each. -/
def propagate_exception (t : Tracker) (e : Exc) (request_id : Option String) :
    Except Exc Tracker :=
  match request_id with
  | some rid =>
      match dictLookup t.request_streams rid with
      | none => Except.error (Exc.keyError rid)
      | some sid =>
          let t1 := { t with
            heap := t.heap.set sid
              ((heapGet t.heap sid).put (StreamItem.exc e)) }
          Except.ok (t1.abort_request rid)
  | none => Except.ok (propagateAllGo e t.request_streams t)

/-- `RequestTracker.process_request_output`: index into `_request_streams`
by the output's request id (raising `KeyError` if absent), put the output,
and abort the request when the output is marked finished. -/
def process_request_output (t : Tracker) (o : ReqOutput) :
    Except Exc Tracker :=
  match dictLookup t.request_streams o.request_id with
  | none => Except.error (Exc.keyError o.request_id)
  | some sid =>
      let t1 := { t with
        heap := t.heap.set sid ((heapGet t.heap sid).put (StreamItem.out o)) }
      Except.ok (if o.finished then t1.abort_request o.request_id else t1)

/-- `RequestTracker.process_exception`: index into `_request_streams`
(raising `KeyError` if absent), put the exception, and abort. -/
def process_exception (t : Tracker) (rid : String) (e : Exc) :
    Except Exc Tracker :=
  match dictLookup t.request_streams rid with
  | none => Except.error (Exc.keyError rid)
  | some sid =>
      let t1 := { t with
        heap := t.heap.set sid ((heapGet t.heap sid).put (StreamItem.exc e)) }
      Except.ok (t1.abort_request rid)

/-- Set insertion for the drained finished set (Python `set.add`,
membership-deduplicated, modelled as an order-preserving dedup list). -/
def insertDedup (acc : List String) (rid : String) : List String :=
  if rid ∈ acc then acc else acc ++ [rid]

/-- First `while` loop of `get_new_and_finished_requests`: drain the
finished FIFO, collecting ids into the deduplicated finished set and popping
each from `_request_streams`. -/
def drainFinished (streams : List (String × Nat)) (fq : List String)
    (acc : List String) : List (String × Nat) × List String :=
  match fq with
  | [] => (streams, acc)
  | rid :: rest => drainFinished (dictRemove streams rid) rest (insertDedup acc rid)

/-- Second `while` loop of `get_new_and_finished_requests`: drain the new
FIFO; entries whose stream id is in the finished set get their stream
finished and are skipped, the rest are inserted into `_request_streams` and
their kwargs appended to the returned list. -/
def drainNew (h : List AsyncStream) (streams : List (String × Nat))
    (fin : List String) (entries : List (Nat × ReqKwargs))
    (acc : List ReqKwargs) :
    List AsyncStream × List (String × Nat) × List ReqKwargs :=
  match entries with
  | [] => (h, streams, acc)
  | (sid, kw) :: rest =>
      let s := heapGet h sid
      if s.request_id ∈ fin then
        drainNew (h.set sid s.finish) streams fin rest acc
      else
        drainNew h (dictInsert streams s.request_id sid) fin rest (acc ++ [kw])

/-- `RequestTracker.get_new_and_finished_requests`: drain the finished
buffer first, then the new buffer; returns the updated tracker, the list of
construction kwargs to forward, and the finished set. -/
def get_new_and_finished_requests (t : Tracker) :
    Tracker × List ReqKwargs × List String :=
  let r1 := drainFinished t.request_streams t.finished_requests []
  let r2 := drainNew t.heap r1.1 r1.2 t.new_requests []
  ({ t with heap := r2.1, request_streams := r2.2.1,
            finished_requests := [], new_requests := [] },
   r2.2.2, r1.2)

/-- `RequestTracker.has_new_requests`. -/
def has_new_requests (t : Tracker) : Bool :=
  ¬ t.new_requests.isEmpty

/-- A request id is fresh for a tracker state: absent from the live mapping
and from the pending-finished buffer, and not referenced by any pending-new
entry (neither through its stream nor through its buffered kwargs), with
pending-new stream indices in range.  Every reachable state in which the id
has never been submitted satisfies this. -/
def freshId (t : Tracker) (rid : String) : Prop :=
  dictContains t.request_streams rid = false ∧
    rid ∉ t.finished_requests ∧
    ∀ p ∈ t.new_requests,
      (heapGet t.heap p.1).request_id ≠ rid ∧
        p.2.request_id ≠ rid ∧ p.1 < t.heap.length

end Tracker

/-! ## The engine step's admission loop -/

/-- Outcome of forwarding one new request to the external engine's admission
path (`add_request_async`): success, a `ValueError` (the only exception
`engine_step` catches there), or any other exception, which escapes the step
task. -/
inductive AddOutcome where
  | ok
  | valueError (msg : String)
  | fatal (e : Exc)
deriving Repr, DecidableEq

namespace Tracker

/-- The new-request forwarding loop of `AsyncAphrodite.engine_step`: each
drained kwargs dict is handed to the external engine's admission path; a
`ValueError` is caught and converted into a per-request exception via
`process_exception`; any other exception escapes. -/
def forward_new_requests (t : Tracker) (news : List ReqKwargs)
    (add : ReqKwargs → AddOutcome) : Except Exc Tracker :=
  match news with
  | [] => Except.ok t
  | kw :: rest =>
      match add kw with
      | AddOutcome.ok => forward_new_requests t rest add
      | AddOutcome.valueError msg =>
          match t.process_exception kw.request_id (Exc.valueError msg) with
          | Except.error e => Except.error e
          | Except.ok t1 => forward_new_requests t1 rest add
      | AddOutcome.fatal e => Except.error e

/-- The admission half of `AsyncAphrodite.engine_step`: drain the tracker,
then forward each drained new request to the external engine. -/
def engine_step_admit (t : Tracker) (add : ReqKwargs → AddOutcome) :
    Except Exc (Tracker × List ReqKwargs × List String) :=
  let r := t.get_new_and_finished_requests
  match forward_new_requests r.1 r.2.1 add with
  | Except.error e => Except.error e
  | Except.ok t2 => Except.ok (t2, r.2.1, r.2.2)

end Tracker

/-! ## The facade and the engine loop's failure paths -/

/-- State of the background loop task as seen by the facade's `is_running` /
`is_stopped` properties. -/
inductive LoopState where
  | notStarted
  | running
  | done
deriving Repr, DecidableEq

/-- The fields of `AsyncAphrodite` relevant to its error contract. -/
structure Facade where
  tracker : Tracker
  errored_with : Option Exc
  loop : LoopState
  start_engine_loop : Bool
deriving Repr, DecidableEq

namespace Facade

/-- `AsyncAphrodite.is_running`. -/
def is_running (f : Facade) : Bool := f.loop = LoopState.running

/-- `AsyncAphrodite.errored`. -/
def errored (f : Facade) : Bool := f.errored_with.isSome

/-- `AsyncAphrodite.is_stopped`: errored, or the loop task has completed. -/
def is_stopped (f : Facade) : Bool :=
  f.errored || decide (f.loop = LoopState.done)

/-- `AsyncAphrodite.set_errored`. -/
def set_errored (f : Facade) (e : Exc) : Facade :=
  { f with errored_with := some e }

/-- `AsyncAphrodite._error_callback`: record the error, then broadcast it to
every live stream via `propagate_exception(exc)` with no request id (that
path never raises, so the unreachable error branch is the identity). -/
def error_callback (f : Facade) (e : Exc) : Facade :=
  let f1 := f.set_errored e
  match f1.tracker.propagate_exception e none with
  | Except.ok t => { f1 with tracker := t }
  | Except.error _ => f1

/-- How the engine-loop task completed, as observed by its done-callback. -/
inductive TaskOutcome where
  | returned
  | failed (e : Exc)
deriving Repr, DecidableEq

/-- `_log_task_completion`, the done-callback attached to the engine-loop
task.  A normal return raises an `AssertionError` inside the `try`, which the
generic `except Exception` handler catches like any other failure; a
`CancelledError` is graceful shutdown; any other exception triggers the
error callback and raises `AsyncEngineDeadError`.  Returns the facade after
the callback together with the exception the callback re-raises, if any. -/
def log_task_completion (o : TaskOutcome) (f : Facade) : Facade × Option Exc :=
  let f0 := { f with loop := LoopState.done }
  match o with
  | TaskOutcome.returned =>
      (f0.error_callback Exc.assertionError,
       some (Exc.asyncEngineDead "Task finished unexpectedly."))
  | TaskOutcome.failed e =>
      if e = Exc.cancelledError then (f0, none)
      else (f0.error_callback e,
            some (Exc.asyncEngineDead "Task finished unexpectedly."))

/-- `AsyncAphrodite.start_background_loop`: dead if previously errored,
error if already running, else construct a fresh `RequestTracker` and start
the loop. -/
def start_background_loop (f : Facade) : Except Exc Facade :=
  if f.errored then
    Except.error (Exc.asyncEngineDead "Background loop has errored already.")
  else if f.is_running then
    Except.error (Exc.runtimeError "Background loop is already running.")
  else
    Except.ok { f with tracker := Tracker.init, loop := LoopState.running }

/-- `AsyncAphrodite.add_request` (facade level): when the loop is not
running, start it if auto-start is enabled, else raise engine-dead; then
register the request with the tracker. -/
def add_request (f : Facade) (rid : String) (args : Nat) :
    Except Exc (Facade × Nat) :=
  match (if ¬ f.is_running then
          (if f.start_engine_loop then f.start_background_loop
           else Except.error
             (Exc.asyncEngineDead "Background loop is not running."))
         else Except.ok f) with
  | Except.error e => Except.error e
  | Except.ok f1 =>
      match f1.tracker.add_request rid args with
      | Except.error e => Except.error e
      | Except.ok (t, sid) => Except.ok ({ f1 with tracker := t }, sid)

/-- `AsyncAphrodite.abort`: engine-dead if the loop is not running, else
delegate to `RequestTracker.abort_request`. -/
def abort (f : Facade) (rid : String) : Except Exc Facade :=
  if ¬ f.is_running then
    Except.error (Exc.asyncEngineDead "Background loop is not running.")
  else Except.ok { f with tracker := f.tracker.abort_request rid }

/-- The dead-facade guard of `AsyncAphrodite.check_health` (the subsequent
liveness probe against the external executor is out of scope). -/
def check_health (f : Facade) : Except Exc Unit :=
  if f.is_stopped then
    Except.error (Exc.asyncEngineDead "Background loop is stopped.")
  else Except.ok ()

end Facade

/-- Python `int(...)` restricted to plain digit strings, the shape the
timeout variable takes; any other string fails. -/
def parseNat (s : String) : Option Nat :=
  let ds := s.data
  if ds.isEmpty then none
  else if ds.all Char.isDigit then
    some (ds.foldl (fun n c => 10 * n + (c.toNat - 48)) 0)
  else none

/-- `ENGINE_ITERATION_TIMEOUT_S`: read
`APHRODITE_ENGINE_ITERATION_TIMEOUT_S` from the environment with default
`"60"` and convert the digit string to a number (Python `int(...)`). -/
def engineIterationTimeoutS (env : String → Option String) : Option Nat :=
  parseNat ((env "APHRODITE_ENGINE_ITERATION_TIMEOUT_S").getD "60")

/-- Observable outcome of one round of `run_engine_loop`'s `while` body: the
bounded wait either returned with the step results, or the per-iteration
timeout elapsed first and `asyncio.TimeoutError` was raised inside the
`async with asyncio_timeout(...)` block. -/
inductive RoundOutcome where
  | stepsCompleted (hasWork : Bool)
  | timedOut
deriving Repr, DecidableEq

/-- One round of `run_engine_loop`: on `TimeoutError` the handler records
the exception via `set_errored` and re-raises it (second component); a
completed round raises nothing. -/
def run_loop_round (f : Facade) (o : RoundOutcome) : Facade × Option Exc :=
  match o with
  | RoundOutcome.stepsCompleted _ => (f, none)
  | RoundOutcome.timedOut =>
      (f.set_errored Exc.timeoutError, some Exc.timeoutError)

/-- `run_engine_loop`'s `while True`, driven by the sequence of per-round
outcomes: rounds are processed until one raises, and the raised exception
terminates the loop — there is no retry path. -/
def run_engine_loop (f : Facade) (os : List RoundOutcome) :
    Facade × Option Exc :=
  match os with
  | [] => (f, none)
  | o :: rest =>
      match run_loop_round f o with
      | (f1, none) => run_engine_loop f1 rest
      | (f1, some e) => (f1, some e)

/-- The consumption loop of `AsyncAphrodite._process_request`: `async for`
over the request's stream, where `cancelAt = some k` models a caller-side
`CancelledError` injected after `k` items were yielded; any exception or
cancellation triggers `self._abort(request_id)` before being re-raised.
Returns the yielded items, the tracker after the drain, and the exception
propagated to the caller, if any. -/
def process_request_drain (t : Tracker) (rid : String) (q : List StreamItem)
    (cancelAt : Option Nat) : List ReqOutput × Tracker × Option Exc :=
  let r := consumeQueue q
  match cancelAt with
  | some k => (r.1.take k, t.abort_request rid, some Exc.cancelledError)
  | none =>
      match r.2 with
      | Terminal.raised e => (r.1, t.abort_request rid, some e)
      | _ => (r.1, t, none)

/-! ## Helper lemmas -/

open Tracker

lemma putAll_unfinished (rid : String) (q : List StreamItem)
    (items : List ReqOutput) :
    putAll ⟨rid, q, false⟩ items =
      ⟨rid, q ++ items.map StreamItem.out, false⟩ := by
  induction items generalizing q with
  | nil => simp [putAll]
  | cons o rest ih =>
      simp only [putAll, List.foldl_cons] at *
      rw [show (AsyncStream.put ⟨rid, q, false⟩ (StreamItem.out o)) =
            ⟨rid, q ++ [StreamItem.out o], false⟩ from rfl]
      rw [ih]
      simp

lemma consumeQueue_outs_stop (items : List ReqOutput) (tail : List StreamItem) :
    consumeQueue (items.map StreamItem.out ++
        (StreamItem.exc Exc.stopAsyncIteration :: tail)) =
      (items, Terminal.clean) := by
  induction items with
  | nil => simp [consumeQueue]
  | cons o rest ih => simp [consumeQueue, ih]

lemma dictLookup_of_contains_false {d : List (String × Nat)} {k : String}
    (h : dictContains d k = false) : dictLookup d k = none := by
  cases hl : dictLookup d k with
  | none => rfl
  | some v => simp [dictContains, hl] at h

lemma dictRemove_of_lookup_none {d : List (String × Nat)} {k : String}
    (h : dictLookup d k = none) : dictRemove d k = d := by
  induction d with
  | nil => rfl
  | cons p rest ih =>
      obtain ⟨k', v⟩ := p
      simp only [dictLookup] at h
      by_cases hk : k' = k
      · simp [hk] at h
      · simp only [if_neg hk] at h
        simp only [dictRemove, List.filter_cons]
        rw [if_pos (by simp [hk])]
        have hrest := ih h
        simp only [dictRemove] at hrest
        rw [hrest]

lemma dictLookup_dictRemove_self (d : List (String × Nat)) (k : String) :
    dictLookup (dictRemove d k) k = none := by
  induction d with
  | nil => rfl
  | cons p rest ih =>
      obtain ⟨k', v⟩ := p
      simp only [dictRemove, List.filter_cons] at *
      by_cases hk : k' = k
      · rw [if_neg (by simp [hk])]
        exact ih
      · rw [if_pos (by simp [hk])]
        simp only [dictLookup, if_neg hk]
        exact ih

lemma dictLookup_dictRemove_ne (d : List (String × Nat)) (k k' : String)
    (h : k ≠ k') : dictLookup (dictRemove d k') k = dictLookup d k := by
  induction d with
  | nil => rfl
  | cons p rest ih =>
      obtain ⟨k1, v⟩ := p
      simp only [dictRemove, List.filter_cons] at *
      by_cases h1 : k1 = k'
      · rw [if_neg (by simp [h1])]
        have hne : k1 ≠ k := fun hh => h (hh ▸ h1)
        simp only [dictLookup, if_neg hne]
        exact ih
      · rw [if_pos (by simp [h1])]
        by_cases h2 : k1 = k
        · simp [dictLookup, h2]
        · simp only [dictLookup, if_neg h2]
          exact ih

lemma heapGet_set_self (h : List AsyncStream) (i : Nat) (x : AsyncStream)
    (hi : i < h.length) : heapGet (h.set i x) i = x := by
  induction h generalizing i with
  | nil => simp at hi
  | cons a rest ih =>
      cases i with
      | zero => simp [heapGet]
      | succ n =>
          simp only [List.set, heapGet, List.getElem?_cons_succ]
          exact ih n (by simpa using hi)

lemma heapGet_set_ne (h : List AsyncStream) (i j : Nat) (x : AsyncStream)
    (hij : i ≠ j) : heapGet (h.set i x) j = heapGet h j := by
  induction h generalizing i j with
  | nil => simp [heapGet]
  | cons a rest ih =>
      cases i with
      | zero =>
          cases j with
          | zero => exact absurd rfl hij
          | succ m => simp [heapGet, List.set]
      | succ n =>
          cases j with
          | zero => simp [heapGet, List.set]
          | succ m =>
              simp only [List.set, heapGet, List.getElem?_cons_succ]
              exact ih n m (fun hh => hij (by simp [hh]))

lemma set_oob (h : List AsyncStream) (i : Nat) (x : AsyncStream)
    (hi : h.length ≤ i) : h.set i x = h := by
  induction h generalizing i with
  | nil => simp
  | cons a rest ih =>
      cases i with
      | zero => simp at hi
      | succ n => simp [List.set, ih n (by simpa using hi)]

lemma heapGet_append_lt (h h' : List AsyncStream) (i : Nat)
    (hi : i < h.length) : heapGet (h ++ h') i = heapGet h i := by
  simp [heapGet, List.getElem?_append_left hi]

lemma heapGet_append_len (h : List AsyncStream) (s : AsyncStream) :
    heapGet (h ++ [s]) h.length = s := by
  simp [heapGet, List.getElem?_concat_length]

lemma abort_request_fields (t : Tracker) (rid : String) :
    (t.abort_request rid).request_streams = t.request_streams ∧
      (t.abort_request rid).finished_requests =
        t.finished_requests ++ [rid] ∧
      (t.abort_request rid).new_requests = t.new_requests ∧
      (t.abort_request rid).new_requests_event = t.new_requests_event := by
  cases h : dictLookup t.request_streams rid with
  | none => simp [Tracker.abort_request, h]
  | some sid =>
      by_cases hf : (heapGet t.heap sid).finished <;>
        simp [Tracker.abort_request, h, hf]

lemma abort_request_of_lookup_none (t : Tracker) (rid : String)
    (h : dictLookup t.request_streams rid = none) :
    t.abort_request rid =
      { t with finished_requests := t.finished_requests ++ [rid] } := by
  simp [Tracker.abort_request, h]

lemma abort_request_of_finished (t : Tracker) (rid : String) (sid : Nat)
    (h : dictLookup t.request_streams rid = some sid)
    (hf : (heapGet t.heap sid).finished = true) :
    t.abort_request rid =
      { t with finished_requests := t.finished_requests ++ [rid] } := by
  simp [Tracker.abort_request, h, hf]

lemma abort_request_of_unfinished (t : Tracker) (rid : String) (sid : Nat)
    (h : dictLookup t.request_streams rid = some sid)
    (hf : (heapGet t.heap sid).finished = false) :
    t.abort_request rid =
      { t with finished_requests := t.finished_requests ++ [rid],
               heap := t.heap.set sid (heapGet t.heap sid).finish } := by
  simp [Tracker.abort_request, h, hf]

lemma abort_abort_heap (t : Tracker) (rid : String) :
    ((t.abort_request rid).abort_request rid).heap =
      (t.abort_request rid).heap := by
  cases h : dictLookup t.request_streams rid with
  | none =>
      have h2 : dictLookup (t.abort_request rid).request_streams rid = none :=
        by rw [(abort_request_fields t rid).1]; exact h
      rw [abort_request_of_lookup_none (t.abort_request rid) rid h2]
  | some sid =>
      have h2 : dictLookup (t.abort_request rid).request_streams rid =
          some sid := by rw [(abort_request_fields t rid).1]; exact h
      cases hf : (heapGet t.heap sid).finished with
      | true =>
          have hh : (t.abort_request rid).heap = t.heap := by
            rw [abort_request_of_finished t rid sid h hf]
          have hf2 : (heapGet (t.abort_request rid).heap sid).finished =
              true := by rw [hh]; exact hf
          rw [abort_request_of_finished (t.abort_request rid) rid sid h2 hf2]
      | false =>
          have hh : (t.abort_request rid).heap =
              t.heap.set sid (heapGet t.heap sid).finish := by
            rw [abort_request_of_unfinished t rid sid h hf]
          by_cases hlt : sid < t.heap.length
          · have hf2 : (heapGet (t.abort_request rid).heap sid).finished =
                true := by
              rw [hh, heapGet_set_self _ _ _ hlt]
              rfl
            rw [abort_request_of_finished (t.abort_request rid) rid sid h2 hf2]
          · have hoob : t.heap.length ≤ sid := Nat.le_of_not_lt hlt
            have hh0 : (t.abort_request rid).heap = t.heap := by
              rw [hh]; exact set_oob _ _ _ hoob
            have hf2 : (heapGet (t.abort_request rid).heap sid).finished =
                false := by rw [hh0]; exact hf
            rw [abort_request_of_unfinished (t.abort_request rid) rid sid h2
              hf2]
            show ((t.abort_request rid).heap.set sid _) = _
            rw [hh0]
            exact set_oob _ _ _ hoob

lemma mem_insertDedup (acc : List String) (r x : String) :
    x ∈ insertDedup acc r ↔ x ∈ acc ∨ x = r := by
  by_cases h : r ∈ acc
  · simp only [insertDedup, if_pos h]
    constructor
    · exact Or.inl
    · rintro (hx | rfl)
      · exact hx
      · exact h
  · simp [insertDedup, if_neg h]

lemma mem_drainFinished_acc (fq : List String) (st : List (String × Nat))
    (acc : List String) (rid : String) (h : rid ∈ acc ∨ rid ∈ fq) :
    rid ∈ (drainFinished st fq acc).2 := by
  induction fq generalizing st acc with
  | nil =>
      rcases h with h | h
      · simpa [drainFinished] using h
      · simp at h
  | cons r rest ih =>
      simp only [drainFinished]
      apply ih
      rcases h with h | h
      · exact Or.inl ((mem_insertDedup acc r rid).2 (Or.inl h))
      · rcases List.mem_cons.1 h with rfl | h
        · exact Or.inl ((mem_insertDedup acc rid rid).2 (Or.inr rfl))
        · exact Or.inr h

lemma drainFinished_lookup_none (fq : List String)
    (st : List (String × Nat)) (acc : List String) (rid : String)
    (h : rid ∈ fq ∨ dictLookup st rid = none) :
    dictLookup (drainFinished st fq acc).1 rid = none := by
  induction fq generalizing st acc with
  | nil =>
      rcases h with h | h
      · simp at h
      · simpa [drainFinished] using h
  | cons r rest ih =>
      simp only [drainFinished]
      apply ih
      by_cases hr : rid = r
      · exact Or.inr (hr ▸ dictLookup_dictRemove_self st rid)
      · rcases h with h | h
        · rcases List.mem_cons.1 h with h' | h'
          · exact absurd h' hr
          · exact Or.inl h'
        · exact Or.inr ((dictLookup_dictRemove_ne st rid r hr).trans h)

lemma drainFinished_append (st : List (String × Nat)) (a b : List String)
    (acc : List String) :
    drainFinished st (a ++ b) acc =
      drainFinished (drainFinished st a acc).1 b (drainFinished st a acc).2 := by
  induction a generalizing st acc with
  | nil => simp [drainFinished]
  | cons r rest ih => simp only [List.cons_append, drainFinished]; exact ih _ _

lemma consumeQueue_stop_tail (q tail : List StreamItem) :
    consumeQueue (q ++ (StreamItem.exc Exc.stopAsyncIteration :: tail)) =
      consumeQueue (q ++ [StreamItem.exc Exc.stopAsyncIteration]) := by
  induction q with
  | nil => simp [consumeQueue]
  | cons it rest ih =>
      cases it with
      | out o => simp [consumeQueue, ih]
      | exc e =>
          cases e <;> simp [consumeQueue, ih]

lemma lookup_map_replace (d : List (String × Nat)) (k : String) (v : Nat)
    (hc : dictContains d k = true) :
    dictLookup (d.map (fun p => if p.1 = k then (k, v) else p)) k = some v := by
  induction d with
  | nil => simp [dictContains, dictLookup] at hc
  | cons p rest ih =>
      obtain ⟨k1, v1⟩ := p
      by_cases h1 : k1 = k
      · rw [show ((k1, v1) :: rest).map
            (fun p => if p.1 = k then (k, v) else p) =
              (k, v) :: rest.map (fun p => if p.1 = k then (k, v) else p)
          from by simp [h1]]
        simp [dictLookup]
      · simp only [List.map_cons]
        rw [show (if (k1, v1).1 = k then (k, v) else (k1, v1)) = (k1, v1)
          from by simp [h1]]
        simp only [dictLookup, if_neg h1]
        apply ih
        simpa [dictContains, dictLookup, h1] using hc

lemma dictLookup_append_single (d : List (String × Nat)) (k k' : String)
    (v : Nat) :
    dictLookup (d ++ [(k', v)]) k =
      (dictLookup d k).orElse (fun _ => if k' = k then some v else none) := by
  induction d with
  | nil => simp [dictLookup]
  | cons p rest ih =>
      obtain ⟨k1, v1⟩ := p
      by_cases h1 : k1 = k <;> simp [dictLookup, h1, ih]

lemma dictLookup_dictInsert_self (d : List (String × Nat)) (k : String)
    (v : Nat) : dictLookup (dictInsert d k v) k = some v := by
  by_cases hc : dictContains d k
  · simp only [dictInsert, if_pos hc]
    exact lookup_map_replace d k v hc
  · simp only [dictInsert, if_neg hc]
    rw [dictLookup_append_single, dictLookup_of_contains_false
      (Bool.not_eq_true _ ▸ (by simpa using hc))]
    simp

lemma lookup_map_replace_ne (d : List (String × Nat)) (k k' : String)
    (v : Nat) (h : k ≠ k') :
    dictLookup (d.map (fun p => if p.1 = k' then (k', v) else p)) k =
      dictLookup d k := by
  induction d with
  | nil => rfl
  | cons p rest ih =>
      obtain ⟨k1, v1⟩ := p
      by_cases h1 : k1 = k'
      · rw [show ((k1, v1) :: rest).map
            (fun p => if p.1 = k' then (k', v) else p) =
              (k', v) :: rest.map (fun p => if p.1 = k' then (k', v) else p)
          from by simp [h1]]
        have hk1 : k1 ≠ k := fun hh => h (hh ▸ h1)
        simp only [dictLookup, if_neg (Ne.symm h), if_neg hk1]
        exact ih
      · rw [show ((k1, v1) :: rest).map
            (fun p => if p.1 = k' then (k', v) else p) =
              (k1, v1) :: rest.map (fun p => if p.1 = k' then (k', v) else p)
          from by simp [h1]]
        by_cases h2 : k1 = k
        · simp [dictLookup, h2]
        · simp only [dictLookup, if_neg h2]
          exact ih

lemma dictLookup_dictInsert_ne (d : List (String × Nat)) (k k' : String)
    (v : Nat) (h : k ≠ k') :
    dictLookup (dictInsert d k' v) k = dictLookup d k := by
  by_cases hc : dictContains d k'
  · simp only [dictInsert, if_pos hc]
    exact lookup_map_replace_ne d k k' v h
  · simp only [dictInsert, if_neg hc]
    rw [dictLookup_append_single, if_neg (Ne.symm h)]
    cases dictLookup d k <;> rfl

lemma heapGet_append_add (h h' : List AsyncStream) (i : Nat) :
    heapGet (h ++ h') (h.length + i) = heapGet h' i := by
  simp [heapGet, List.getElem?_append_right (Nat.le_add_right h.length i)]

lemma finish_request_id (s : AsyncStream) :
    s.finish.request_id = s.request_id := rfl

lemma heapGet_set_finish_request_id (h : List AsyncStream) (i j : Nat) :
    (heapGet (h.set i (heapGet h i).finish) j).request_id =
      (heapGet h j).request_id := by
  by_cases hij : i = j
  · subst hij
    by_cases hlt : i < h.length
    · rw [heapGet_set_self _ _ _ hlt, finish_request_id]
    · rw [set_oob _ _ _ (Nat.le_of_not_lt hlt)]
  · rw [heapGet_set_ne _ _ _ _ hij]

lemma drainNew_append (h : List AsyncStream) (st : List (String × Nat))
    (fin : List String) (a b : List (Nat × ReqKwargs)) (acc : List ReqKwargs) :
    drainNew h st fin (a ++ b) acc =
      drainNew (drainNew h st fin a acc).1 (drainNew h st fin a acc).2.1 fin b
        (drainNew h st fin a acc).2.2 := by
  induction a generalizing h st acc with
  | nil => simp [drainNew]
  | cons p rest ih =>
      obtain ⟨sid, kw⟩ := p
      by_cases hm : (heapGet h sid).request_id ∈ fin <;>
        simp only [List.cons_append, drainNew, if_pos, if_neg, hm,
          ite_true, ite_false] <;> exact ih _ _ _

lemma drainNew_heap_length (h : List AsyncStream) (st : List (String × Nat))
    (fin : List String) (entries : List (Nat × ReqKwargs))
    (acc : List ReqKwargs) :
    (drainNew h st fin entries acc).1.length = h.length := by
  induction entries generalizing h st acc with
  | nil => simp [drainNew]
  | cons p rest ih =>
      obtain ⟨sid, kw⟩ := p
      by_cases hm : (heapGet h sid).request_id ∈ fin
      · simp only [drainNew, if_pos hm]
        rw [ih]
        exact List.length_set h sid _
      · simp only [drainNew, if_neg hm]
        exact ih _ _ _

lemma drainNew_slot (h : List AsyncStream) (st : List (String × Nat))
    (fin : List String) (entries : List (Nat × ReqKwargs))
    (acc : List ReqKwargs) (sid : Nat)
    (hs : ∀ p ∈ entries, p.1 ≠ sid) :
    heapGet (drainNew h st fin entries acc).1 sid = heapGet h sid := by
  induction entries generalizing h st acc with
  | nil => simp [drainNew]
  | cons p rest ih =>
      obtain ⟨q, kw⟩ := p
      have hq : q ≠ sid := hs (q, kw) (List.mem_cons_self _ _)
      have hrest : ∀ p ∈ rest, p.1 ≠ sid :=
        fun p hp => hs p (List.mem_cons_of_mem _ hp)
      by_cases hm : (heapGet h q).request_id ∈ fin
      · simp only [drainNew, if_pos hm]
        rw [ih _ _ _ hrest, heapGet_set_ne _ _ _ _ hq]
      · simp only [drainNew, if_neg hm]
        exact ih _ _ _ hrest

lemma drainNew_lookup_none (h : List AsyncStream) (st : List (String × Nat))
    (fin : List String) (entries : List (Nat × ReqKwargs))
    (acc : List ReqKwargs) (rid : String)
    (hent : ∀ p ∈ entries, (heapGet h p.1).request_id ≠ rid)
    (hrs : dictLookup st rid = none) :
    dictLookup (drainNew h st fin entries acc).2.1 rid = none := by
  induction entries generalizing h st acc with
  | nil => simpa [drainNew] using hrs
  | cons p rest ih =>
      obtain ⟨q, kw⟩ := p
      have hq : (heapGet h q).request_id ≠ rid :=
        hent (q, kw) (List.mem_cons_self _ _)
      have hrest : ∀ p ∈ rest, (heapGet h p.1).request_id ≠ rid :=
        fun p hp => hent p (List.mem_cons_of_mem _ hp)
      by_cases hm : (heapGet h q).request_id ∈ fin
      · simp only [drainNew, if_pos hm]
        apply ih
        · intro p hp
          rw [heapGet_set_finish_request_id]
          exact hrest p hp
        · exact hrs
      · simp only [drainNew, if_neg hm]
        apply ih _ _ _ hrest
        rw [dictLookup_dictInsert_ne _ _ _ _ (Ne.symm hq)]
        exact hrs

lemma drainNew_news (h : List AsyncStream) (st : List (String × Nat))
    (fin : List String) (entries : List (Nat × ReqKwargs))
    (acc : List ReqKwargs) (rid : String)
    (hkw : ∀ p ∈ entries, p.2.request_id ≠ rid) :
    ∀ kw ∈ (drainNew h st fin entries acc).2.2,
      kw ∈ acc ∨ kw.request_id ≠ rid := by
  induction entries generalizing h st acc with
  | nil =>
      intro kw hm
      exact Or.inl (by simpa [drainNew] using hm)
  | cons p rest ih =>
      obtain ⟨q, kw0⟩ := p
      have hq : kw0.request_id ≠ rid := hkw (q, kw0) (List.mem_cons_self _ _)
      have hrest : ∀ p ∈ rest, p.2.request_id ≠ rid :=
        fun p hp => hkw p (List.mem_cons_of_mem _ hp)
      intro kw hm
      by_cases hmem : (heapGet h q).request_id ∈ fin
      · simp only [drainNew, if_pos hmem] at hm
        exact ih _ _ _ hrest kw hm
      · simp only [drainNew, if_neg hmem] at hm
        rcases ih _ _ _ hrest kw hm with hacc | hne
        · rcases List.mem_append.1 hacc with hacc | hkw0
          · exact Or.inl hacc
          · right
            rw [List.mem_singleton.1 hkw0]
            exact hq
        · exact Or.inr hne

lemma drainNew_single_skip (h : List AsyncStream) (st : List (String × Nat))
    (fin : List String) (sid : Nat) (kw : ReqKwargs) (acc : List ReqKwargs)
    (hmem : (heapGet h sid).request_id ∈ fin) :
    drainNew h st fin [(sid, kw)] acc =
      (h.set sid (heapGet h sid).finish, st, acc) := by
  simp only [drainNew, if_pos hmem]

lemma drainNew_single_keep (h : List AsyncStream) (st : List (String × Nat))
    (fin : List String) (sid : Nat) (kw : ReqKwargs) (acc : List ReqKwargs)
    (hmem : (heapGet h sid).request_id ∉ fin) :
    drainNew h st fin [(sid, kw)] acc =
      (h, dictInsert st (heapGet h sid).request_id sid, acc ++ [kw]) := by
  simp only [drainNew, if_neg hmem]

lemma drainFinished_acc_sub (fq : List String) (st : List (String × Nat))
    (acc : List String) (x : String)
    (h : x ∈ (drainFinished st fq acc).2) : x ∈ acc ∨ x ∈ fq := by
  induction fq generalizing st acc with
  | nil => exact Or.inl (by simpa [drainFinished] using h)
  | cons r rest ih =>
      simp only [drainFinished] at h
      rcases ih _ _ h with hacc | hrest
      · rcases (mem_insertDedup acc r x).1 hacc with hx | rfl
        · exact Or.inl hx
        · exact Or.inr (List.mem_cons_self _ _)
      · exact Or.inr (List.mem_cons_of_mem _ hrest)

/-! ## C8: idempotence of abort_request and finish -/

/-- **C8.** Calling `abort_request` twice with the same request id produces
the same observable state as calling it once: the live mapping and the
stream heap are unchanged by the second call, and the next
`get_new_and_finished_requests` drain (its deduplicated finished set, its
new-request list, and the resulting tracker) is identical.  Likewise a
second `finish()` on a stream leaves the consumer-observed contents and the
finished flag identical to a single `finish()`. -/
theorem abort_and_finish_idempotent (t : Tracker) (rid : String)
    (s : AsyncStream) :
    ((t.abort_request rid).abort_request rid).request_streams =
        (t.abort_request rid).request_streams ∧
      ((t.abort_request rid).abort_request rid).heap =
        (t.abort_request rid).heap ∧
      ((t.abort_request rid).abort_request rid).get_new_and_finished_requests =
        (t.abort_request rid).get_new_and_finished_requests ∧
      consumeQueue s.finish.finish.queue = consumeQueue s.finish.queue ∧
      s.finish.finish.finished = s.finish.finished := by
  have hf1 := abort_request_fields t rid
  have hf2 := abort_request_fields (t.abort_request rid) rid
  have hheap := abort_abort_heap t rid
  refine ⟨hf2.1, hheap, ?_, ?_, rfl⟩
  · have hmem : rid ∈ (drainFinished (t.abort_request rid).request_streams
        (t.abort_request rid).finished_requests []).2 :=
      mem_drainFinished_acc _ _ _ _ (Or.inr (by rw [hf1.2.1]; simp))
    have hlook : dictLookup (drainFinished (t.abort_request rid).request_streams
        (t.abort_request rid).finished_requests []).1 rid = none :=
      drainFinished_lookup_none _ _ _ _ (Or.inl (by rw [hf1.2.1]; simp))
    simp only [Tracker.get_new_and_finished_requests, hf2.1, hheap,
      hf2.2.1, hf2.2.2.1, hf2.2.2.2, drainFinished_append]
    simp only [drainFinished, insertDedup, if_pos hmem,
      dictRemove_of_lookup_none hlook]
  · simp only [AsyncStream.finish, List.append_assoc, List.singleton_append]
    exact consumeQueue_stop_tail _ _

lemma add_request_of_fresh (t : Tracker) (rid : String) (args : Nat)
    (h : dictContains t.request_streams rid = false) :
    t.add_request rid args = Except.ok
      ({ t with
          heap := t.heap ++ [AsyncStream.new rid],
          new_requests := t.new_requests ++ [(t.heap.length, ⟨rid, args⟩)],
          new_requests_event := true }, t.heap.length) := by
  simp [Tracker.add_request, h]

/-! ## C1: submit-then-abort before a drain never reaches the engine -/

/-- **C1.** For a tracker state in which a request id was submitted and then
aborted before any drain (so the id sits in both the pending-new and the
pending-finished buffer), `get_new_and_finished_requests` — which drains the
finished buffer first and only then the new buffer — returns the id in the
finished set, returns no construction kwargs carrying the id in the
new-request list, leaves the id out of the live mapping, and finishes the
request's stream so that it holds exactly one terminal marker. -/
theorem submitted_then_aborted_never_admitted (t : Tracker) (rid : String)
    (args : Nat) (hf : t.freshId rid) :
    ∃ t1, t.add_request rid args = Except.ok (t1, t.heap.length) ∧
      rid ∈ (t1.abort_request rid).get_new_and_finished_requests.2.2 ∧
      (∀ kw ∈ (t1.abort_request rid).get_new_and_finished_requests.2.1,
        kw.request_id ≠ rid) ∧
      dictContains
        (t1.abort_request rid).get_new_and_finished_requests.1.request_streams
        rid = false ∧
      heapGet (t1.abort_request rid).get_new_and_finished_requests.1.heap
          t.heap.length =
        ⟨rid, [StreamItem.exc Exc.stopAsyncIteration], true⟩ := by
  obtain ⟨hc, hfq, hnew⟩ := hf
  have hl : dictLookup t.request_streams rid = none :=
    dictLookup_of_contains_false hc
  refine ⟨_, add_request_of_fresh t rid args hc, ?_⟩
  have hab : ({ t with
      heap := t.heap ++ [AsyncStream.new rid],
      new_requests := t.new_requests ++ [(t.heap.length, ⟨rid, args⟩)],
      new_requests_event := true } : Tracker).abort_request rid =
    { t with
      heap := t.heap ++ [AsyncStream.new rid],
      new_requests := t.new_requests ++ [(t.heap.length, ⟨rid, args⟩)],
      new_requests_event := true,
      finished_requests := t.finished_requests ++ [rid] } :=
    abort_request_of_lookup_none _ rid hl
  rw [hab]
  simp only [Tracker.get_new_and_finished_requests]
  rw [drainFinished_append]
  simp only [drainFinished]
  set A := (drainFinished t.request_streams t.finished_requests []).1 with hA
  set B := (drainFinished t.request_streams t.finished_requests []).2 with hB
  have hfin : rid ∈ insertDedup B rid := (mem_insertDedup _ _ _).2 (Or.inr rfl)
  have hst1 : dictLookup (dictRemove A rid) rid = none :=
    dictLookup_dictRemove_self A rid
  rw [drainNew_append]
  set h0 := t.heap ++ [AsyncStream.new rid] with hh0
  set D := drainNew h0 (dictRemove A rid) (insertDedup B rid)
    t.new_requests [] with hD
  have hslot : heapGet D.1 t.heap.length = AsyncStream.new rid := by
    rw [hD, drainNew_slot _ _ _ _ _ _
      (fun p hp => Nat.ne_of_lt (hnew p hp).2.2), hh0, heapGet_append_len]
  have hentD : ∀ p ∈ t.new_requests, (heapGet h0 p.1).request_id ≠ rid := by
    intro p hp
    rw [hh0, heapGet_append_lt _ _ _ (hnew p hp).2.2]
    exact (hnew p hp).1
  have hlookupD : dictLookup D.2.1 rid = none := by
    rw [hD]
    exact drainNew_lookup_none _ _ _ _ _ _ hentD hst1
  have hnewsD : ∀ kw ∈ D.2.2, kw.request_id ≠ rid := by
    intro kw hm
    rcases drainNew_news h0 (dictRemove A rid) (insertDedup B rid)
        t.new_requests [] rid (fun p hp => (hnew p hp).2.1) kw
        (hD ▸ hm) with hacc | hne
    · simp at hacc
    · exact hne
  rw [drainNew_single_skip D.1 D.2.1 (insertDedup B rid) t.heap.length
    ⟨rid, args⟩ D.2.2 (by rw [hslot]; exact hfin)]
  refine ⟨hfin, hnewsD, ?_, ?_⟩
  · simp [dictContains, hlookupD]
  · have hlen : t.heap.length < D.1.length := by
      rw [hD, drainNew_heap_length, hh0]
      simp
    rw [hslot, heapGet_set_self _ _ _ hlen]
    rfl

/-- Witness for C1: the empty tracker and request `"r"`. -/
theorem submitted_then_aborted_never_admitted_witness :
    Tracker.init.freshId "r" ∧
      ∃ t1, Tracker.init.add_request "r" 7 = Except.ok (t1, 0) ∧
        "r" ∈ (t1.abort_request "r").get_new_and_finished_requests.2.2 ∧
        (∀ kw ∈ (t1.abort_request "r").get_new_and_finished_requests.2.1,
          kw.request_id ≠ "r") ∧
        dictContains
          (t1.abort_request
            "r").get_new_and_finished_requests.1.request_streams "r" = false ∧
        heapGet (t1.abort_request "r").get_new_and_finished_requests.1.heap 0 =
          ⟨"r", [StreamItem.exc Exc.stopAsyncIteration], true⟩ := by
  have hfresh : Tracker.init.freshId "r" := by
    refine ⟨rfl, by simp [Tracker.init], ?_⟩
    intro p hp
    simp [Tracker.init] at hp
  exact ⟨hfresh,
    submitted_then_aborted_never_admitted Tracker.init "r" 7 hfresh⟩

/-! ## C9: duplicate submission through the pending-new buffer -/

/-- **C9.** `add_request` checks duplicates only against the live mapping:
for an id absent from the live mapping but already buffered in pending-new,
a second `add_request` with the same id succeeds; the next drain returns
both sets of construction kwargs, in submission order, and the live mapping
ends up holding the second stream (the second insert replaces the first
mapping entry). -/
theorem add_request_duplicate_in_new_buffer (t : Tracker) (rid : String)
    (a1 a2 : Nat) (hf : t.freshId rid) :
    ∃ t1, t.add_request rid a1 = Except.ok (t1, t.heap.length) ∧
      ∃ t2 sid2, t1.add_request rid a2 = Except.ok (t2, sid2) ∧
        sid2 = t.heap.length + 1 ∧
        (∃ pre, t2.get_new_and_finished_requests.2.1 =
          pre ++ [⟨rid, a1⟩, ⟨rid, a2⟩]) ∧
        dictLookup t2.get_new_and_finished_requests.1.request_streams rid =
          some sid2 ∧
        heapGet t2.get_new_and_finished_requests.1.heap sid2 =
          AsyncStream.new rid := by
  obtain ⟨hc, hfq, hnew⟩ := hf
  have hl : dictLookup t.request_streams rid = none :=
    dictLookup_of_contains_false hc
  refine ⟨_, add_request_of_fresh t rid a1 hc, ?_⟩
  refine ⟨_, _, add_request_of_fresh ({ t with
      heap := t.heap ++ [AsyncStream.new rid],
      new_requests := t.new_requests ++ [(t.heap.length, ⟨rid, a1⟩)],
      new_requests_event := true } : Tracker) rid a2 hc, by simp, ?_⟩
  simp only [Tracker.get_new_and_finished_requests]
  set A := (drainFinished t.request_streams t.finished_requests []).1 with hA
  set B := (drainFinished t.request_streams t.finished_requests []).2 with hB
  have hridB : rid ∉ B := by
    intro hmem
    rcases drainFinished_acc_sub _ _ _ _ (hB ▸ hmem) with h | h
    · simp at h
    · exact hfq h
  have hlookA : dictLookup A rid = none :=
    drainFinished_lookup_none _ _ _ _ (Or.inr hl)
  set H2 := (t.heap ++ [AsyncStream.new rid]) ++ [AsyncStream.new rid]
    with hH2
  have hlt1 : t.heap.length < (t.heap ++ [AsyncStream.new rid]).length := by
    simp
  rw [show (t.new_requests ++ [(t.heap.length, (⟨rid, a1⟩ : ReqKwargs))]) ++
        [((t.heap ++ [AsyncStream.new rid]).length, (⟨rid, a2⟩ : ReqKwargs))] =
      t.new_requests ++
        ([(t.heap.length, (⟨rid, a1⟩ : ReqKwargs))] ++
          [((t.heap ++ [AsyncStream.new rid]).length,
            (⟨rid, a2⟩ : ReqKwargs))]) from by simp]
  rw [drainNew_append]
  set D := drainNew H2 A B t.new_requests [] with hD
  have hsl1 : heapGet D.1 t.heap.length = AsyncStream.new rid := by
    rw [hD, drainNew_slot _ _ _ _ _ _
      (fun p hp => Nat.ne_of_lt (hnew p hp).2.2), hH2,
      heapGet_append_lt _ _ _ hlt1, heapGet_append_len]
  have hsl2 : heapGet D.1 (t.heap ++ [AsyncStream.new rid]).length =
      AsyncStream.new rid := by
    rw [hD, drainNew_slot _ _ _ _ _ _
      (fun p hp => Nat.ne_of_lt (Nat.lt_trans (hnew p hp).2.2 hlt1)), hH2,
      heapGet_append_len]
  have hlookD : dictLookup D.2.1 rid = none := by
    rw [hD]
    refine drainNew_lookup_none _ _ _ _ _ _ ?_ hlookA
    intro p hp
    rw [hH2, heapGet_append_lt _ _ _ (Nat.lt_trans (hnew p hp).2.2 hlt1),
      heapGet_append_lt _ _ _ (hnew p hp).2.2]
    exact (hnew p hp).1
  rw [drainNew_append]
  rw [drainNew_single_keep D.1 D.2.1 B t.heap.length ⟨rid, a1⟩ D.2.2
    (by rw [hsl1]; exact hridB)]
  rw [drainNew_single_keep D.1 _ B (t.heap ++ [AsyncStream.new rid]).length
    ⟨rid, a2⟩ _ (by rw [hsl2]; exact hridB)]
  rw [hsl1, hsl2]
  rw [show (AsyncStream.new rid).request_id = rid from rfl]
  refine ⟨⟨D.2.2, by simp⟩, ?_, rfl⟩
  exact dictLookup_dictInsert_self _ rid _

/-- Witness for C9: the empty tracker and request `"r"` submitted twice
before any drain. -/
theorem add_request_duplicate_in_new_buffer_witness :
    Tracker.init.freshId "r" ∧
      ∃ t1, Tracker.init.add_request "r" 1 = Except.ok (t1, 0) ∧
        ∃ t2 sid2, t1.add_request "r" 2 = Except.ok (t2, sid2) ∧
          sid2 = 1 ∧
          (∃ pre, t2.get_new_and_finished_requests.2.1 =
            pre ++ [⟨"r", 1⟩, ⟨"r", 2⟩]) ∧
          dictLookup t2.get_new_and_finished_requests.1.request_streams "r" =
            some sid2 ∧
          heapGet t2.get_new_and_finished_requests.1.heap sid2 =
            AsyncStream.new "r" := by
  have hfresh : Tracker.init.freshId "r" := by
    refine ⟨rfl, by simp [Tracker.init], ?_⟩
    intro p hp
    simp [Tracker.init] at hp
  exact ⟨hfresh,
    add_request_duplicate_in_new_buffer Tracker.init "r" 1 2 hfresh⟩

/-! ## C3: stream put/finish/consume -/

/-- **C3.** For every finite sequence of `put(item)` calls on a fresh
`AsyncStream` followed by one `finish()`, consuming the stream yields exactly
the put items in the order they were put and then terminates cleanly; any
`put` performed after `finish()` leaves the stream unchanged, so its item
never appears in the consumed sequence. -/
theorem asyncStream_put_finish_consume (rid : String) (items : List ReqOutput)
    (x : StreamItem) :
    consumeQueue ((putAll (AsyncStream.new rid) items).finish.queue) =
        (items, Terminal.clean) ∧
      ((putAll (AsyncStream.new rid) items).finish.put x =
        (putAll (AsyncStream.new rid) items).finish) := by
  constructor
  · rw [show AsyncStream.new rid = ⟨rid, [], false⟩ from rfl,
        putAll_unfinished]
    simp [AsyncStream.finish, consumeQueue_outs_stop]
  · rw [show AsyncStream.new rid = ⟨rid, [], false⟩ from rfl,
        putAll_unfinished]
    simp [AsyncStream.finish, AsyncStream.put]

/-! ## C4: duplicate live id rejected synchronously -/

/-- **C4.** For every request id currently present in the live mapping,
`RequestTracker.add_request` with that id raises `KeyError` synchronously:
the call returns the error without constructing a stream, buffering into the
pending-new buffer, or touching the existing stream (the returned value
carries no state change at all). -/
theorem add_request_duplicate_live (t : Tracker) (rid : String) (args : Nat)
    (h : dictContains t.request_streams rid = true) :
    t.add_request rid args = Except.error (Exc.keyError rid) := by
  simp [Tracker.add_request, h]

/-- Witness for C4 on a concrete tracker with `"r"` live. -/
theorem add_request_duplicate_live_witness :
    ({ heap := [AsyncStream.new "r"], request_streams := [("r", 0)],
       finished_requests := [], new_requests := [],
       new_requests_event := false } : Tracker).add_request "r" 5 =
      Except.error (Exc.keyError "r") :=
  add_request_duplicate_live _ "r" 5 (by decide)

/-! ## C10: missing-id behaviour of the tracker operations -/

/-- **C10.** For every request id absent from the live mapping,
`propagate_exception` with that id, `process_request_output` for an output
carrying that id, and `process_exception` each raise `KeyError`, while
`abort_request` returns normally, merely buffering the id into the
pending-finished buffer. -/
theorem tracker_missing_id_keyError (t : Tracker) (rid : String) (e : Exc)
    (o : ReqOutput) (h : dictContains t.request_streams rid = false)
    (ho : o.request_id = rid) :
    t.propagate_exception e (some rid) = Except.error (Exc.keyError rid) ∧
      t.process_request_output o = Except.error (Exc.keyError rid) ∧
      t.process_exception rid e = Except.error (Exc.keyError rid) ∧
      t.abort_request rid =
        { t with finished_requests := t.finished_requests ++ [rid] } := by
  have hl : dictLookup t.request_streams rid = none :=
    dictLookup_of_contains_false h
  refine ⟨?_, ?_, ?_, ?_⟩
  · simp [Tracker.propagate_exception, hl]
  · simp [Tracker.process_request_output, ho, hl]
  · simp [Tracker.process_exception, hl]
  · simp [Tracker.abort_request, hl]

/-- Witness for C10 on a concrete tracker whose live mapping is empty while
`"r"` still sits in the pending-new buffer. -/
theorem tracker_missing_id_keyError_witness :
    (({ heap := [AsyncStream.new "r"], request_streams := [],
        finished_requests := [], new_requests := [(0, ⟨"r", 1⟩)],
        new_requests_event := true } : Tracker).propagate_exception
          (Exc.other 3) (some "r") = Except.error (Exc.keyError "r")) ∧
      (({ heap := [AsyncStream.new "r"], request_streams := [],
          finished_requests := [], new_requests := [(0, ⟨"r", 1⟩)],
          new_requests_event := true } : Tracker).abort_request "r" =
        { heap := [AsyncStream.new "r"], request_streams := [],
          finished_requests := ["r"], new_requests := [(0, ⟨"r", 1⟩)],
          new_requests_event := true }) := by
  have h := tracker_missing_id_keyError
    ({ heap := [AsyncStream.new "r"], request_streams := [],
       finished_requests := [], new_requests := [(0, ⟨"r", 1⟩)],
       new_requests_event := true } : Tracker) "r" (Exc.other 3)
    ⟨"r", false, 0⟩ (by decide) (by decide)
  exact ⟨h.1, h.2.2.2⟩

/-! ## C6: validation errors are request-scoped -/

lemma mem_of_dictLookup {d : List (String × Nat)} {k : String} {v : Nat}
    (h : dictLookup d k = some v) : (k, v) ∈ d := by
  induction d with
  | nil => simp [dictLookup] at h
  | cons p rest ih =>
      obtain ⟨k1, v1⟩ := p
      by_cases h1 : k1 = k
      · simp only [dictLookup, if_pos h1] at h
        subst h1
        rw [Option.some_inj] at h
        subst h
        exact List.mem_cons_self _ _
      · simp only [dictLookup, if_neg h1] at h
        exact List.mem_cons_of_mem _ (ih h)

lemma snd_nodup_eq_key {d : List (String × Nat)} {a b : String} {v : Nat}
    (hn : (d.map Prod.snd).Nodup) (ha : (a, v) ∈ d) (hb : (b, v) ∈ d) :
    a = b := by
  induction d with
  | nil => simp at ha
  | cons p rest ih =>
      rw [List.map_cons, List.nodup_cons] at hn
      rcases List.mem_cons.1 ha with ha' | ha'
      · rcases List.mem_cons.1 hb with hb' | hb'
        · exact congrArg Prod.fst (ha'.trans hb'.symm)
        · exfalso
          apply hn.1
          rw [← ha']
          simpa using List.mem_map_of_mem Prod.snd hb'
      · rcases List.mem_cons.1 hb with hb' | hb'
        · exfalso
          apply hn.1
          rw [← hb']
          simpa using List.mem_map_of_mem Prod.snd ha'
        · exact ih hn.2 ha' hb'

lemma process_exception_effect (t : Tracker) (rid : String) (sid : Nat)
    (e : Exc) (hlook : dictLookup t.request_streams rid = some sid)
    (hlt : sid < t.heap.length) :
    ∃ t2, t.process_exception rid e = Except.ok t2 ∧
      t2.request_streams = t.request_streams ∧
      t2.heap.length = t.heap.length ∧
      (∀ j, j ≠ sid → heapGet t2.heap j = heapGet t.heap j) ∧
      t2.finished_requests = t.finished_requests ++ [rid] ∧
      (if (heapGet t.heap sid).finished then
        heapGet t2.heap sid = heapGet t.heap sid
      else heapGet t2.heap sid =
        ⟨(heapGet t.heap sid).request_id,
         (heapGet t.heap sid).queue ++
           [StreamItem.exc e, StreamItem.exc Exc.stopAsyncIteration],
         true⟩) := by
  have hpe : t.process_exception rid e = Except.ok
      (({ t with
            heap := t.heap.set sid ((heapGet t.heap sid).put (StreamItem.exc e))
          } : Tracker).abort_request rid) := by
    simp [Tracker.process_exception, hlook]
  cases hf : (heapGet t.heap sid).finished with
  | true =>
      have hput : (heapGet t.heap sid).put (StreamItem.exc e) =
          heapGet t.heap sid := by
        simp [AsyncStream.put, hf]
      rw [hput] at hpe
      have hslot1 : heapGet (t.heap.set sid (heapGet t.heap sid)) sid =
          heapGet t.heap sid := heapGet_set_self _ _ _ hlt
      have hfin1 : (heapGet (t.heap.set sid (heapGet t.heap sid))
          sid).finished = true := by rw [hslot1]; exact hf
      rw [abort_request_of_finished
        ({ t with heap := t.heap.set sid (heapGet t.heap sid) } : Tracker)
        rid sid hlook hfin1] at hpe
      refine ⟨_, hpe, rfl, ?_, ?_, rfl, ?_⟩
      · simp
      · intro j hj
        exact heapGet_set_ne _ _ _ _ (fun hh => hj hh.symm)
      · rw [if_pos rfl]
        exact hslot1
  | false =>
      have hput : (heapGet t.heap sid).put (StreamItem.exc e) =
          ⟨(heapGet t.heap sid).request_id,
           (heapGet t.heap sid).queue ++ [StreamItem.exc e], false⟩ := by
        simp [AsyncStream.put, hf]
      rw [hput] at hpe
      set q1 : AsyncStream :=
        ⟨(heapGet t.heap sid).request_id,
         (heapGet t.heap sid).queue ++ [StreamItem.exc e], false⟩ with hq1
      have hslot1 : heapGet (t.heap.set sid q1) sid = q1 :=
        heapGet_set_self _ _ _ hlt
      have hfin1 : (heapGet (t.heap.set sid q1) sid).finished = false := by
        rw [hslot1]
      rw [abort_request_of_unfinished
        ({ t with heap := t.heap.set sid q1 } : Tracker) rid sid hlook
        hfin1] at hpe
      rw [hslot1] at hpe
      refine ⟨_, hpe, rfl, ?_, ?_, rfl, ?_⟩
      · show ((t.heap.set sid q1).set sid q1.finish).length = t.heap.length
        simp
      · intro j hj
        show heapGet ((t.heap.set sid q1).set sid q1.finish) j =
          heapGet t.heap j
        rw [heapGet_set_ne _ _ _ _ (fun hh => hj hh.symm),
          heapGet_set_ne _ _ _ _ (fun hh => hj hh.symm)]
      · rw [if_neg (by decide)]
        show heapGet ((t.heap.set sid q1).set sid q1.finish) sid = _
        have hlt1 : sid < (t.heap.set sid q1).length := by simpa using hlt
        rw [heapGet_set_self _ _ _ hlt1, hq1]
        simp [AsyncStream.finish]

lemma forward_spec (ridb : String) (sidb : Nat) (m : String) :
    ∀ (news : List ReqKwargs) (add : ReqKwargs → AddOutcome) (t : Tracker),
      dictLookup t.request_streams ridb = some sidb →
      sidb < t.heap.length →
      (∀ kw ∈ news,
        (kw.request_id = ridb ∧ add kw = AddOutcome.valueError m) ∨
          add kw = AddOutcome.ok) →
      ((StreamItem.exc (Exc.valueError m) ∈ (heapGet t.heap sidb).queue ∧
          (heapGet t.heap sidb).finished = true) ∨
        (heapGet t.heap sidb).finished = false) →
      ∃ t2, forward_new_requests t news add = Except.ok t2 ∧
        t2.request_streams = t.request_streams ∧
        t2.heap.length = t.heap.length ∧
        (∀ j, j ≠ sidb → heapGet t2.heap j = heapGet t.heap j) ∧
        (∀ x ∈ t.finished_requests, x ∈ t2.finished_requests) ∧
        ((heapGet t.heap sidb).finished = true →
          heapGet t2.heap sidb = heapGet t.heap sidb) ∧
        ((∃ kw ∈ news, add kw = AddOutcome.valueError m) →
          StreamItem.exc (Exc.valueError m) ∈ (heapGet t2.heap sidb).queue ∧
            (heapGet t2.heap sidb).finished = true ∧
            ridb ∈ t2.finished_requests) := by
  intro news add
  induction news with
  | nil =>
      intro t hlook hlt hadd hstate
      refine ⟨t, rfl, rfl, rfl, fun j _ => rfl, fun x hx => hx,
        fun _ => rfl, ?_⟩
      rintro ⟨kw, hkw, -⟩
      simp at hkw
  | cons kw rest ih =>
      intro t hlook hlt hadd hstate
      rcases hadd kw (List.mem_cons_self _ _) with ⟨hrid, hval⟩ | hok
      · simp only [forward_new_requests, hval]
        rw [hrid]
        obtain ⟨t1, hpe, hrs1, hlen1, hoth1, hfin1, hslot1⟩ :=
          process_exception_effect t ridb sidb (Exc.valueError m) hlook hlt
        rw [hpe]
        have hlook1 : dictLookup t1.request_streams ridb = some sidb := by
          rw [hrs1]; exact hlook
        have hlt1 : sidb < t1.heap.length := by rw [hlen1]; exact hlt
        have hP1 : StreamItem.exc (Exc.valueError m) ∈
            (heapGet t1.heap sidb).queue ∧
            (heapGet t1.heap sidb).finished = true := by
          rcases hstate with ⟨hq, hfin⟩ | hunf
          · rw [if_pos hfin] at hslot1
            rw [hslot1]
            exact ⟨hq, hfin⟩
          · rw [if_neg (by rw [hunf]; exact Bool.false_ne_true)] at hslot1
            rw [hslot1]
            exact ⟨by simp, rfl⟩
        obtain ⟨t2, hfwd, hrs2, hlen2, hoth2, hmono2, hfrozen2, hbad2⟩ :=
          ih t1 hlook1 hlt1
            (fun kw' h' => hadd kw' (List.mem_cons_of_mem _ h'))
            (Or.inl hP1)
        refine ⟨t2, hfwd, hrs2.trans hrs1, hlen2.trans hlen1, ?_, ?_, ?_, ?_⟩
        · intro j hj
          rw [hoth2 j hj, hoth1 j hj]
        · intro x hx
          apply hmono2
          rw [hfin1]
          exact List.mem_append_left _ hx
        · intro hfin
          rw [hfrozen2 hP1.2, if_pos hfin] at *
          exact hslot1
        · intro _
          refine ⟨?_, ?_, ?_⟩
          · rw [hfrozen2 hP1.2]
            exact hP1.1
          · rw [hfrozen2 hP1.2]
            exact hP1.2
          · apply hmono2
            rw [hfin1]
            simp
      · simp only [forward_new_requests, hok]
        obtain ⟨t2, hfwd, hrs2, hlen2, hoth2, hmono2, hfrozen2, hbad2⟩ :=
          ih t hlook hlt
            (fun kw' h' => hadd kw' (List.mem_cons_of_mem _ h')) hstate
        refine ⟨t2, hfwd, hrs2, hlen2, hoth2, hmono2, hfrozen2, ?_⟩
        rintro ⟨kw', hmem', hval'⟩
        rcases List.mem_cons.1 hmem' with rfl | hmem'
        · rw [hok] at hval'
          exact absurd hval' (by simp)
        · exact hbad2 ⟨kw', hmem', hval'⟩

/-- **C6.** During one engine step, when forwarding the drained new requests
to the external engine's admission path, a `ValueError` raised for one
request is caught and delivered only to that request's stream — the
exception lands in its queue and the stream is finished and aborted — the
remaining new requests are still processed and the forwarding loop returns
normally (no exception escapes the step), while the stream of every other
live request is left untouched. -/
theorem engine_step_validation_error_scoped (t : Tracker)
    (news : List ReqKwargs) (add : ReqKwargs → AddOutcome) (kwb : ReqKwargs)
    (m : String) (sidb : Nat)
    (hlook : dictLookup t.request_streams kwb.request_id = some sidb)
    (hlt : sidb < t.heap.length)
    (hunf : (heapGet t.heap sidb).finished = false)
    (hmem : kwb ∈ news)
    (hbad : add kwb = AddOutcome.valueError m)
    (hadd : ∀ kw ∈ news, kw = kwb ∨ add kw = AddOutcome.ok)
    (hvals : (t.request_streams.map Prod.snd).Nodup) :
    ∃ t2, forward_new_requests t news add = Except.ok t2 ∧
      t2.request_streams = t.request_streams ∧
      StreamItem.exc (Exc.valueError m) ∈ (heapGet t2.heap sidb).queue ∧
      (heapGet t2.heap sidb).finished = true ∧
      kwb.request_id ∈ t2.finished_requests ∧
      ∀ rid sid, (rid, sid) ∈ t.request_streams → rid ≠ kwb.request_id →
        heapGet t2.heap sid = heapGet t.heap sid := by
  obtain ⟨t2, hfwd, hrs2, hlen2, hoth2, hmono2, hfrozen2, hbad2⟩ :=
    forward_spec kwb.request_id sidb m news add t hlook hlt
      (fun kw h' => by
        rcases hadd kw h' with rfl | hok
        · exact Or.inl ⟨rfl, hbad⟩
        · exact Or.inr hok)
      (Or.inr hunf)
  obtain ⟨hq2, hfin2, hrid2⟩ := hbad2 ⟨kwb, hmem, hbad⟩
  refine ⟨t2, hfwd, hrs2, hq2, hfin2, hrid2, ?_⟩
  intro rid sid hmem' hne
  apply hoth2
  intro hsid
  apply hne
  subst hsid
  exact snd_nodup_eq_key hvals hmem' (mem_of_dictLookup hlook)

/-- Witness for C6: two drained requests, the first of which fails
validation while the second is admitted; a second live request `"s"` keeps
its stream untouched. -/
theorem engine_step_validation_error_scoped_witness :
    (∃ t2, Tracker.forward_new_requests
        { heap := [AsyncStream.new "b", AsyncStream.new "s"],
          request_streams := [("b", 0), ("s", 1)], finished_requests := [],
          new_requests := [], new_requests_event := false }
        [⟨"b", 1⟩, ⟨"s", 2⟩]
        (fun kw => if kw.request_id = "b" then AddOutcome.valueError "bad"
          else AddOutcome.ok) = Except.ok t2 ∧
      t2.request_streams = [("b", 0), ("s", 1)] ∧
      StreamItem.exc (Exc.valueError "bad") ∈ (heapGet t2.heap 0).queue ∧
      (heapGet t2.heap 0).finished = true ∧
      "b" ∈ t2.finished_requests ∧
      ∀ rid sid, (rid, sid) ∈ [("b", 0), ("s", 1)] → rid ≠ "b" →
        heapGet t2.heap sid =
          heapGet [AsyncStream.new "b", AsyncStream.new "s"] sid) := by
  have h := engine_step_validation_error_scoped
    { heap := [AsyncStream.new "b", AsyncStream.new "s"],
      request_streams := [("b", 0), ("s", 1)], finished_requests := [],
      new_requests := [], new_requests_event := false }
    [⟨"b", 1⟩, ⟨"s", 2⟩]
    (fun kw => if kw.request_id = "b" then AddOutcome.valueError "bad"
      else AddOutcome.ok)
    ⟨"b", 1⟩ "bad" 0 (by decide) (by decide) (by decide) (by decide)
    (by decide) (by decide) (by decide)
  exact h

/-! ## C2: loop failure broadcast and engine-dead facade -/

lemma dictLookup_of_mem_nodup {d : List (String × Nat)} {k : String}
    {v : Nat} (hn : (d.map Prod.fst).Nodup) (hm : (k, v) ∈ d) :
    dictLookup d k = some v := by
  induction d with
  | nil => simp at hm
  | cons p rest ih =>
      obtain ⟨k1, v1⟩ := p
      rw [List.map_cons, List.nodup_cons] at hn
      rcases List.mem_cons.1 hm with hm' | hm'
      · have hk : k1 = k := (congrArg Prod.fst hm').symm
        have hv : v1 = v := (congrArg Prod.snd hm').symm
        subst hk
        subst hv
        simp [dictLookup]
      · have hk1 : k1 ≠ k := by
          intro hh
          apply hn.1
          rw [hh]
          simpa using List.mem_map_of_mem Prod.fst hm'
        simp only [dictLookup, if_neg hk1]
        exact ih hn.2 hm'

lemma propagateAllGo_spec (e : Exc) :
    ∀ (entries : List (String × Nat)) (t : Tracker),
      (∀ p ∈ entries, p ∈ t.request_streams) →
      (t.request_streams.map Prod.fst).Nodup →
      (∀ p ∈ t.request_streams, p.2 < t.heap.length) →
      (propagateAllGo e entries t).request_streams = t.request_streams ∧
        (propagateAllGo e entries t).heap.length = t.heap.length ∧
        (∀ x ∈ t.finished_requests,
          x ∈ (propagateAllGo e entries t).finished_requests) ∧
        (∀ j, StreamItem.exc e ∈ (heapGet t.heap j).queue ∧
            (heapGet t.heap j).finished = true →
          StreamItem.exc e ∈ (heapGet (propagateAllGo e entries t).heap
              j).queue ∧
            (heapGet (propagateAllGo e entries t).heap j).finished = true) ∧
        (∀ rid sid, (rid, sid) ∈ entries →
          rid ∈ (propagateAllGo e entries t).finished_requests ∧
            ((heapGet t.heap sid).finished = false →
              StreamItem.exc e ∈ (heapGet (propagateAllGo e entries t).heap
                  sid).queue ∧
                (heapGet (propagateAllGo e entries t).heap sid).finished =
                  true)) := by
  intro entries
  induction entries with
  | nil =>
      intro t hent hkeys hbound
      exact ⟨rfl, rfl, fun x hx => hx, fun j hj => hj, by simp⟩
  | cons p rest ih =>
      intro t hent hkeys hbound
      obtain ⟨rid, sid⟩ := p
      have hmem : (rid, sid) ∈ t.request_streams :=
        hent _ (List.mem_cons_self _ _)
      have hlooks : dictLookup t.request_streams rid = some sid :=
        dictLookup_of_mem_nodup hkeys hmem
      have hlt : sid < t.heap.length := hbound _ hmem
      obtain ⟨t1, hpe, hrs1, hlen1, hoth1, hfin1, hslot1⟩ :=
        process_exception_effect t rid sid e hlooks hlt
      have hX : ({ t with
          heap := t.heap.set sid ((heapGet t.heap sid).put (StreamItem.exc e))
        } : Tracker).abort_request rid = t1 := by
        have hpe2 : t.process_exception rid e = Except.ok
            (({ t with
                heap := t.heap.set sid
                  ((heapGet t.heap sid).put (StreamItem.exc e))
              } : Tracker).abort_request rid) := by
          simp [Tracker.process_exception, hlooks]
        rw [hpe2] at hpe
        exact Except.ok.inj hpe
      have hstep : propagateAllGo e ((rid, sid) :: rest) t =
          propagateAllGo e rest t1 := by
        simp only [propagateAllGo]
        rw [hX]
      rw [hstep]
      have hent1 : ∀ p ∈ rest, p ∈ t1.request_streams := by
        intro p hp
        rw [hrs1]
        exact hent p (List.mem_cons_of_mem _ hp)
      have hkeys1 : (t1.request_streams.map Prod.fst).Nodup := by
        rw [hrs1]; exact hkeys
      have hbound1 : ∀ p ∈ t1.request_streams, p.2 < t1.heap.length := by
        intro p hp
        rw [hlen1]
        exact hbound p (hrs1 ▸ hp)
      obtain ⟨hrs2, hlen2, hmono2, hpres2, hentry2⟩ := ih t1 hent1 hkeys1
        hbound1
      have hP1 : ∀ j, StreamItem.exc e ∈ (heapGet t.heap j).queue ∧
          (heapGet t.heap j).finished = true →
          StreamItem.exc e ∈ (heapGet t1.heap j).queue ∧
            (heapGet t1.heap j).finished = true := by
        intro j hj
        by_cases hjs : j = sid
        · subst hjs
          rw [if_pos hj.2] at hslot1
          rw [hslot1]
          exact hj
        · rw [hoth1 j hjs]
          exact hj
      refine ⟨hrs2.trans hrs1, hlen2.trans hlen1, ?_, ?_, ?_⟩
      · intro x hx
        apply hmono2
        rw [hfin1]
        exact List.mem_append_left _ hx
      · intro j hj
        exact hpres2 j (hP1 j hj)
      · intro rid' sid' hm'
        rcases List.mem_cons.1 hm' with heq | hm'
        · have h1 : rid' = rid := congrArg Prod.fst heq
          have h2 : sid' = sid := congrArg Prod.snd heq
          constructor
          · rw [h1]
            apply hmono2
            rw [hfin1]
            simp
          · intro hunf
            rw [h2] at hunf ⊢
            rw [if_neg (by rw [hunf]; exact Bool.false_ne_true)] at hslot1
            exact hpres2 sid (by rw [hslot1]; exact ⟨by simp, rfl⟩)
        · refine ⟨(hentry2 rid' sid' hm').1, ?_⟩
          intro hunf
          by_cases hjs : sid' = sid
          · subst hjs
            rw [if_neg (by rw [hunf]; exact Bool.false_ne_true)] at hslot1
            exact hpres2 sid' (by rw [hslot1]; exact ⟨by simp, rfl⟩)
          · exact (hentry2 rid' sid' hm').2 (by rw [hoth1 sid' hjs]; exact hunf)

/-- **C2, counterexample.**  The claim says every stream currently in the
live mapping receives the loop's terminal exception.  A stream that is
already finished but not yet evicted (a state `process_request_output`
leaves behind until the next drain) is still in the live mapping, yet
`put` on it is a no-op: after the loop task fails with `Exc.other 7`, that
stream's queue still holds only its terminal marker — the exception object
never reaches it. -/
theorem engine_failure_finished_stream_misses_exception :
    (let f0 : Facade :=
      { tracker :=
          { heap := [⟨"r", [StreamItem.exc Exc.stopAsyncIteration], true⟩],
            request_streams := [("r", 0)],
            finished_requests := [],
            new_requests := [],
            new_requests_event := false },
        errored_with := none,
        loop := LoopState.running,
        start_engine_loop := true }
    let r := Facade.log_task_completion
      (Facade.TaskOutcome.failed (Exc.other 7)) f0
    ("r", 0) ∈ r.1.tracker.request_streams ∧
      StreamItem.exc (Exc.other 7) ∉ (heapGet r.1.tracker.heap 0).queue) := by
  decide

/-- **C2, amended.** If the engine-loop task completes with an exception
other than a cancellation, the facade's errored flag is set to that
exception and the done-callback re-raises `AsyncEngineDeadError`; every
request id in the live mapping is aborted (buffered into the finished set),
every *not-yet-finished* stream in the live mapping receives the exception
object and is finished (already-finished streams, kept in the mapping until
the next drain, do not observe it), and every subsequent `add_request`
(with auto-start enabled), `abort`, or `check_health` call on the facade
fails with an engine-dead error. -/
theorem engine_failure_broadcast_and_dead (f : Facade) (e : Exc)
    (hne : e ≠ Exc.cancelledError)
    (hkeys : (f.tracker.request_streams.map Prod.fst).Nodup)
    (hbound : ∀ p ∈ f.tracker.request_streams, p.2 < f.tracker.heap.length)
    (hauto : f.start_engine_loop = true) :
    (Facade.log_task_completion (Facade.TaskOutcome.failed e)
        f).1.errored_with = some e ∧
      (Facade.log_task_completion (Facade.TaskOutcome.failed e) f).2 =
        some (Exc.asyncEngineDead "Task finished unexpectedly.") ∧
      (∀ rid sid, (rid, sid) ∈ f.tracker.request_streams →
        rid ∈ (Facade.log_task_completion (Facade.TaskOutcome.failed e)
            f).1.tracker.finished_requests ∧
          ((heapGet f.tracker.heap sid).finished = false →
            StreamItem.exc e ∈
              (heapGet (Facade.log_task_completion
                (Facade.TaskOutcome.failed e) f).1.tracker.heap sid).queue ∧
              (heapGet (Facade.log_task_completion
                (Facade.TaskOutcome.failed e) f).1.tracker.heap
                sid).finished = true)) ∧
      (∀ rid args,
        (Facade.log_task_completion (Facade.TaskOutcome.failed e)
            f).1.add_request rid args =
          Except.error
            (Exc.asyncEngineDead "Background loop has errored already.")) ∧
      (∀ rid,
        (Facade.log_task_completion (Facade.TaskOutcome.failed e)
            f).1.abort rid =
          Except.error
            (Exc.asyncEngineDead "Background loop is not running.")) ∧
      (Facade.log_task_completion (Facade.TaskOutcome.failed e)
          f).1.check_health =
        Except.error (Exc.asyncEngineDead "Background loop is stopped.") := by
  have hr : Facade.log_task_completion (Facade.TaskOutcome.failed e) f =
      ({ f with
          loop := LoopState.done,
          errored_with := some e,
          tracker := propagateAllGo e f.tracker.request_streams f.tracker },
       some (Exc.asyncEngineDead "Task finished unexpectedly.")) := by
    simp only [Facade.log_task_completion, if_neg hne,
      Facade.error_callback, Facade.set_errored, Tracker.propagate_exception]
  rw [hr]
  obtain ⟨hrs2, hlen2, hmono2, hpres2, hentry2⟩ :=
    propagateAllGo_spec e f.tracker.request_streams f.tracker
      (fun p hp => hp) hkeys hbound
  refine ⟨rfl, rfl, ?_, ?_, ?_, ?_⟩
  · intro rid sid hm
    exact hentry2 rid sid hm
  · intro rid args
    simp [Facade.add_request, Facade.is_running, Facade.start_background_loop,
      Facade.errored, hauto]
  · intro rid
    simp [Facade.abort, Facade.is_running]
  · simp [Facade.check_health, Facade.is_stopped, Facade.errored]

/-- Witness for the amended C2 on a facade with one live unfinished
stream. -/
theorem engine_failure_broadcast_and_dead_witness :
    ((Exc.other 3) ≠ Exc.cancelledError ∧
      ((([("r", (0 : Nat))]).map Prod.fst).Nodup) ∧
      (∀ p ∈ [("r", (0 : Nat))], p.2 < 1)) ∧
    (let f0 : Facade :=
      { tracker :=
          { heap := [AsyncStream.new "r"],
            request_streams := [("r", 0)],
            finished_requests := [],
            new_requests := [],
            new_requests_event := false },
        errored_with := none,
        loop := LoopState.running,
        start_engine_loop := true }
    let r := Facade.log_task_completion
      (Facade.TaskOutcome.failed (Exc.other 3)) f0
    r.1.errored_with = some (Exc.other 3) ∧
      r.2 = some (Exc.asyncEngineDead "Task finished unexpectedly.") ∧
      (∀ rid sid, (rid, sid) ∈ f0.tracker.request_streams →
        rid ∈ r.1.tracker.finished_requests ∧
          ((heapGet f0.tracker.heap sid).finished = false →
            StreamItem.exc (Exc.other 3) ∈
              (heapGet r.1.tracker.heap sid).queue ∧
              (heapGet r.1.tracker.heap sid).finished = true)) ∧
      (∀ rid args, r.1.add_request rid args = Except.error
        (Exc.asyncEngineDead "Background loop has errored already.")) ∧
      (∀ rid, r.1.abort rid = Except.error
        (Exc.asyncEngineDead "Background loop is not running.")) ∧
      r.1.check_health = Except.error
        (Exc.asyncEngineDead "Background loop is stopped.")) :=
  ⟨⟨by decide, by decide, by decide⟩,
    engine_failure_broadcast_and_dead
      { tracker :=
          { heap := [AsyncStream.new "r"],
            request_streams := [("r", 0)],
            finished_requests := [],
            new_requests := [],
            new_requests_event := false },
        errored_with := none,
        loop := LoopState.running,
        start_engine_loop := true }
      (Exc.other 3) (by decide) (by decide) (by decide) (by decide)⟩

/-! ## C5: abort before propagating a consumption error -/

/-- **C5.** In `_process_request`'s consumption loop, whenever draining the
request's stream ends with an exception or a caller-side cancellation, the
tracker state handed back is exactly `abort_request` applied for that
request id before the exception propagates: the id is buffered into the
pending-finished buffer, and if the request was live with an unfinished
(in-range) stream, that stream is finalized. -/
theorem process_request_abort_on_exception (t : Tracker) (rid : String)
    (q : List StreamItem) (cancelAt : Option Nat)
    (h : (process_request_drain t rid q cancelAt).2.2.isSome = true) :
    (process_request_drain t rid q cancelAt).2.1 = t.abort_request rid ∧
      rid ∈ (process_request_drain t rid q cancelAt).2.1.finished_requests ∧
      ∀ sid, dictLookup t.request_streams rid = some sid →
        sid < t.heap.length →
        (heapGet t.heap sid).finished = false →
        (heapGet (process_request_drain t rid q cancelAt).2.1.heap
          sid).finished = true := by
  have habort : (process_request_drain t rid q cancelAt).2.1 =
      t.abort_request rid := by
    cases cancelAt with
    | some k => rfl
    | none =>
        cases hterm : (consumeQueue q).2 with
        | clean => simp [process_request_drain, hterm] at h
        | blocked => simp [process_request_drain, hterm] at h
        | raised e => simp [process_request_drain, hterm]
  refine ⟨habort, ?_, ?_⟩
  · rw [habort, (abort_request_fields t rid).2.1]
    simp
  · intro sid hlook hlt hunf
    rw [habort, abort_request_of_unfinished t rid sid hlook hunf]
    rw [show ({ t with
        finished_requests := t.finished_requests ++ [rid],
        heap := t.heap.set sid (heapGet t.heap sid).finish } : Tracker).heap =
      t.heap.set sid (heapGet t.heap sid).finish from rfl]
    rw [heapGet_set_self _ _ _ hlt]
    rfl

/-- Witness for C5: a live request `"r"` whose drain is cancelled after one
yielded item. -/
theorem process_request_abort_on_exception_witness :
    ((process_request_drain
        { heap := [⟨"r", [StreamItem.out ⟨"r", false, 9⟩], false⟩],
          request_streams := [("r", 0)], finished_requests := [],
          new_requests := [], new_requests_event := false } "r"
        [StreamItem.out ⟨"r", false, 9⟩] (some 1)).2.2.isSome = true) ∧
      ((process_request_drain
          { heap := [⟨"r", [StreamItem.out ⟨"r", false, 9⟩], false⟩],
            request_streams := [("r", 0)], finished_requests := [],
            new_requests := [], new_requests_event := false } "r"
          [StreamItem.out ⟨"r", false, 9⟩] (some 1)).2.1 =
        ({ heap := [⟨"r", [StreamItem.out ⟨"r", false, 9⟩], false⟩],
           request_streams := [("r", 0)], finished_requests := [],
           new_requests := [], new_requests_event := false } :
             Tracker).abort_request "r" ∧
        "r" ∈ (process_request_drain
          { heap := [⟨"r", [StreamItem.out ⟨"r", false, 9⟩], false⟩],
            request_streams := [("r", 0)], finished_requests := [],
            new_requests := [], new_requests_event := false } "r"
          [StreamItem.out ⟨"r", false, 9⟩] (some 1)).2.1.finished_requests ∧
        ∀ sid, dictLookup ([("r", 0)]) "r" = some sid → sid < 1 →
          (heapGet [⟨"r", [StreamItem.out ⟨"r", false, 9⟩], false⟩]
            sid).finished = false →
          (heapGet (process_request_drain
            { heap := [⟨"r", [StreamItem.out ⟨"r", false, 9⟩], false⟩],
              request_streams := [("r", 0)], finished_requests := [],
              new_requests := [], new_requests_event := false } "r"
            [StreamItem.out ⟨"r", false, 9⟩] (some 1)).2.1.heap
            sid).finished = true) :=
  ⟨by decide, process_request_abort_on_exception _ "r" _ (some 1) (by decide)⟩

/-! ## C7: iteration timeout is fatal and not retried -/

/-- **C7.** If the per-iteration timeout (default 60, overridable through
the `APHRODITE_ENGINE_ITERATION_TIMEOUT_S` environment variable) elapses
before any step task completes, the loop records the `TimeoutError` via
`set_errored` — so the facade's errored flag becomes set — and re-raises it,
terminating `run_engine_loop` regardless of any further rounds: the failure
is never retried. -/
theorem engine_loop_timeout_fatal (f : Facade) (rest : List RoundOutcome) :
    run_engine_loop f (RoundOutcome.timedOut :: rest) =
        (f.set_errored Exc.timeoutError, some Exc.timeoutError) ∧
      (f.set_errored Exc.timeoutError).errored = true ∧
      engineIterationTimeoutS (fun _ => none) = some 60 ∧
      engineIterationTimeoutS (fun _ => some "120") = some 120 := by
  refine ⟨?_, rfl, by decide, by decide⟩
  simp [run_engine_loop, run_loop_round]

end AsyncAphrodite
